import Mathlib

/-!
Shallow embedding of `resources/LocalizationParser.ps1` from the
PowerShellLocalization repository.

The script parses a PowerShell module file, finds the `Import-LocalizedData`
command invocations, statically resolves each call's arguments (walking the
command elements, resolving variables through the lexically-last prior
assignment, and splatting hashtable bundles), injects the `UICulture`,
`BaseDirectory` and `ErrorAction` parameters, and collects one entry per
binding-variable name.

Modelling conventions:
* PowerShell `$null` is `Option.none`; scalar values are `Option String`.
* PowerShell string comparison (`-eq`) and hashtable keys are
  case-insensitive (`ciEq`, comparing ASCII-lowered strings).
* `.Trim('"')` / `.Trim(lone-quote)` remove ALL leading and trailing
  occurrences of the character (`trimChar`), exactly like .NET `String.Trim`.
* Statement-terminating PowerShell errors (null index key, duplicate
  hashtable key on `+`, the explicit `throw`) are `Except.error`.
* The external `Import-LocalizedData` cmdlet only sees the finished argument
  record; the model's output maps each binding name to that record (the
  loaded data is a function of the record and the filesystem, which is out
  of scope).
-/

namespace PSLoc

/-- Remove every leading and trailing occurrence of `c` (the semantics of
.NET `String.Trim(char)`, used by the script as `.Trim(quote)` and
`.Trim(dash)`). -/
def trimCharList (c : Char) (l : List Char) : List Char :=
  ((l.dropWhile (· == c)).reverse.dropWhile (· == c)).reverse

/-- String version of `trimCharList`. -/
def trimChar (c : Char) (s : String) : String :=
  ⟨trimCharList c s.data⟩

/-- The script's `.Trim(dquote).Trim(squote)` idiom: first all leading and
trailing double quotes are removed, then all leading and trailing single
quotes. -/
def trimQuotes (s : String) : String :=
  trimChar '\'' (trimChar '"' s)

/-- The script's `.Trim(dash)` on a `CommandParameterAst` extent. -/
def trimDashes (s : String) : String :=
  trimChar '-' s

/-- ASCII lower-casing of one character (sufficient for the parameter names
and identifiers the script compares). -/
def lowerChar (c : Char) : Char :=
  if c.isUpper then Char.ofNat (c.toNat + 32) else c

/-- Case-insensitive string equality: the semantics of PowerShell `-eq` on
strings and of the default `Hashtable` key comparer. -/
def ciEq (a b : String) : Bool :=
  a.data.map lowerChar == b.data.map lowerChar

/-- A PowerShell hashtable as consumed by the script: an association list
with case-insensitive keys; a value of `none` is PowerShell `$null`. -/
abbrev Record := List (String × Option String)

/-- Key membership test under case-insensitive comparison. -/
def containsKey {α : Type} (r : List (String × α)) (k : String) : Bool :=
  r.any (fun kv => ciEq kv.1 k)

/-- Hashtable read (`$h[k]` / `$h.k`): `none` when the key is absent,
`some v` when present with value `v`. -/
def lookupKey {α : Type} (r : List (String × α)) (k : String) : Option α :=
  (r.find? (fun kv => ciEq kv.1 k)).map (·.2)

/-- Hashtable assignment `$h[k] = v`: overwrite the matching entry if the
key is present (keeping the stored key's casing), otherwise append. -/
def setKey {α : Type} (r : List (String × α)) (k : String) (v : α) :
    List (String × α) :=
  if containsKey r k then
    r.map (fun kv => if ciEq kv.1 k then (kv.1, v) else kv)
  else
    r ++ [(k, v)]

/-- Hashtable `Remove(k)`. -/
def removeKey {α : Type} (r : List (String × α)) (k : String) :
    List (String × α) :=
  r.filter (fun kv => !(ciEq kv.1 k))

/-- The statement-terminating errors the script can raise while processing
the call sites: assigning under a `$null` index, `Hashtable.Add` on an
existing key during `+=`, and the explicit `throw` of the `default` switch
branch. -/
inductive PSError where
  | nullKey : PSError
  | duplicateKey : String → PSError
  | unhandled : String → PSError
deriving DecidableEq

/-- A non-splatted `VariableExpressionAst` appearing as a hashtable entry
value (the only place the recursion of `Get-VariableFromScriptBlock` can
reach one): its `VariablePath.UserPath`, `Extent.StartLineNumber` and
`Extent.Text`. -/
structure NVar where
  userPath : String
  line : Nat
  text : String
deriving DecidableEq

/-- One `KeyValuePairs` entry of a `HashtableAst`: the key's extent text,
the value statement's extent text, and—when the value pipeline's expression
is a `VariableExpressionAst`—that variable. -/
structure HashEntry where
  keyText : String
  valueText : String
  valueVar : Option NVar
deriving DecidableEq

/-- An `AssignmentStatementAst` as consumed by the script: `lhsVar` is the
`VariablePath.UserPath` of the left-hand side when that side is a
`VariableExpressionAst` (`none` otherwise), `line` its
`Extent.StartLineNumber`, `rhsText` the right-hand side's extent text (not
read by the script), and `rhsPairs` the `KeyValuePairs` of
`Right.Expression` when that expression is a `HashtableAst` (`none`
otherwise: the member access then yields `$null` and the foreach iterates
zero times). -/
structure Assignment where
  lhsVar : Option String
  line : Nat
  rhsText : String
  rhsPairs : Option (List HashEntry)
deriving DecidableEq

/-- A `VariableExpressionAst` appearing as a command element. -/
structure VarElem where
  userPath : String
  line : Nat
  text : String
  splatted : Bool
deriving DecidableEq

/-- A command element after the command name, classified exactly as the
script's `switch` does: `CommandParameterAst`, `CommandExpressionAst`,
`ParameterAst`, `StringConstantExpressionAst`, `VariableExpressionAst`, and
everything else (`other`, carrying the type name used in the `throw`
message). The `text` of the marker kinds is the extent text. -/
inductive CmdElement where
  | param : String → CmdElement
  | paramDecl : String → CmdElement
  | expr : CmdElement
  | strConst : String → CmdElement
  | varRef : VarElem → CmdElement
  | other : String → CmdElement
deriving DecidableEq

/-- A `CommandAst`: its `GetCommandName()` result and the command elements
after the name (`CommandElements[1..]`). -/
structure Call where
  name : String
  elements : List CmdElement
deriving DecidableEq

/-- The parsed file, as the two `FindAll` searches see it: all assignment
statements and all command invocations, each in traversal (document)
order. -/
structure Script where
  assignments : List Assignment
  commands : List Call
deriving DecidableEq

/-- The `FindAll` predicate inside `Get-VariableFromScriptBlock`: an
assignment whose left-hand side is a variable with the same (`-eq`,
case-insensitive) user path and whose start line is at most the referencing
element's start line. -/
def matchesVar (p : String) (line : Nat) (a : Assignment) : Bool :=
  match a.lhsVar with
  | some l => ciEq l p && decide (a.line ≤ line)
  | none => false

/-- The `FindAll ... | Select-Object -Last 1` of
`Get-VariableFromScriptBlock`: the last matching assignment in traversal
order. -/
def lastAssignment (tree : Script) (p : String) (line : Nat) :
    Option Assignment :=
  (tree.assignments.filter (matchesVar p line)).getLast?

/-- The non-splatted branch of `Get-VariableFromScriptBlock`: when a
matching assignment exists the function returns the referencing element's
own extent text with quotes trimmed (it does not read the assignment); when
none exists it falls off the end of the function and returns `$null`. -/
def resolveScalarVar (tree : Script) (p : String) (line : Nat)
    (text : String) : Option String :=
  match lastAssignment tree p line with
  | some _ => some (trimQuotes text)
  | none => none

/-- The value stored for one hashtable entry in the splatted branch: if the
entry's value is a variable, recurse (necessarily the scalar branch, since
splatting is not expression syntax); otherwise the value statement's extent
text with quotes trimmed. -/
def splatEntryValue (tree : Script) (kv : HashEntry) : Option String :=
  match kv.valueVar with
  | some nv => resolveScalarVar tree nv.userPath nv.line nv.text
  | none => some (trimQuotes kv.valueText)

/-- The `$return` hashtable built by the splatted branch: entries assigned
(`$return[key] = value`, i.e. `setKey`) in declaration order. -/
def buildSplatTable (tree : Script) (entries : List HashEntry) : Record :=
  entries.foldl (fun acc kv => setKey acc kv.keyText (splatEntryValue tree kv)) []

/-- The splatted branch of `Get-VariableFromScriptBlock`: `some` table when
a matching assignment exists (empty when its right-hand side is not a
hashtable literal), `$null` (`none`) when no assignment matches. -/
def resolveSplatVar (tree : Script) (v : VarElem) : Option Record :=
  match lastAssignment tree v.userPath v.line with
  | some a => some (buildSplatTable tree (a.rhsPairs.getD []))
  | none => none

/-- PowerShell hashtable `+` (used by `$splat += $variableValue`): clone the
left operand and `Add` each entry of the right operand, failing on an
already-present key; the existing entry is never overwritten. -/
def hashtableAdd (r : Record) : Record → Except PSError Record
  | [] => .ok r
  | kv :: rest =>
    if containsKey r kv.1 then .error (.duplicateKey kv.1)
    else hashtableAdd (r ++ [kv]) rest

/-- The mutable state of the element loop: `$parameterName` (initially
`$null`) and the `$splat` hashtable under construction. -/
structure ArgState where
  param : Option String
  splat : Record
deriving DecidableEq

/-- Store a scalar under the active parameter name
(`$splat[$parameterName] = value`): indexing a hashtable with a `$null` key
is a statement-terminating error. -/
def storeScalar (st : ArgState) (v : Option String) : Except PSError ArgState :=
  match st.param with
  | none => .error .nullKey
  | some p => .ok ⟨some p, setKey st.splat p v⟩

/-- One iteration of the element loop's `switch`. -/
def stepElement (tree : Script) (st : ArgState) :
    CmdElement → Except PSError ArgState
  | .param t => .ok ⟨some (trimDashes t), st.splat⟩
  | .paramDecl t => .ok ⟨some (trimDashes t), st.splat⟩
  | .expr => .ok st
  | .strConst t => storeScalar st (some (trimQuotes t))
  | .varRef v =>
    if v.splatted then
      match resolveSplatVar tree v with
      | some table =>
        match hashtableAdd st.splat table with
        | .ok merged => .ok ⟨st.param, merged⟩
        | .error e => .error e
      | none => storeScalar st none
    else
      storeScalar st (resolveScalarVar tree v.userPath v.line v.text)
  | .other kind => .error (.unhandled kind)

/-- The element loop over a call's elements. -/
def resolveArgsAux (tree : Script) (st : ArgState) :
    List CmdElement → Except PSError ArgState
  | [] => .ok st
  | e :: rest =>
    match stepElement tree st e with
    | .ok st' => resolveArgsAux tree st' rest
    | .error err => .error err

/-- Resolve one call's argument record: run the element loop from
`$parameterName = $null` and an empty `$splat`. -/
def resolveCall (tree : Script) (elements : List CmdElement) :
    Except PSError Record :=
  match resolveArgsAux tree ⟨none, []⟩ elements with
  | .ok st => .ok st.splat
  | .error e => .error e

/-- The `UICulture` defaulting of lines 137-142: the explicit culture name
when the parameter is non-null with a non-empty `Name`, else `en-US`. -/
def effectiveLocale : Option String → String
  | some n => if n == "" then "en-US" else n
  | none => "en-US"

/-- PowerShell truthiness of `$splat.BindingVariable`: an absent key or a
`$null` or empty-string value is falsy; any non-empty string is truthy. -/
def truthy : Option (Option String) → Bool
  | some (some s) => !(s == "")
  | some none => false
  | none => false

/-- The unconditional parameter injection after binding extraction:
`UICulture` (already defaulted), `BaseDirectory` (the module's parent
directory) and `ErrorAction`. -/
def finalizeSplat (splat : Record) (localeName : String)
    (parentDir : String) : Record :=
  setKey (setKey (setKey splat "UICulture" (some localeName))
    "BaseDirectory" (some parentDir)) "ErrorAction" (some "Continue")

/-- The state threaded through the `foreach ($call in ...)` loop: the
`$result` hashtable and the `$bindingVariable` variable, which is only
written when a call's record has a truthy `BindingVariable` and therefore
persists across iterations. -/
structure RunState where
  result : List (String × Record)
  binding : Option String
deriving DecidableEq

/-- Process one call site: resolve the argument record; if it has a truthy
`BindingVariable`, capture it and remove it from the record; inject the
fixed parameters; then `$result[$bindingVariable] = $data` — indexing with
a still-`$null` binding name is a statement-terminating error. -/
def processCall (tree : Script) (locale : Option String) (parentDir : String)
    (st : RunState) (c : Call) : Except PSError RunState :=
  match resolveCall tree c.elements with
  | .error e => .error e
  | .ok splat =>
    let extracted :=
      if truthy (lookupKey splat "BindingVariable") then
        ((lookupKey splat "BindingVariable").getD none,
          removeKey splat "BindingVariable")
      else (st.binding, splat)
    let final := finalizeSplat extracted.2 (effectiveLocale locale) parentDir
    match extracted.1 with
    | some b => .ok ⟨setKey st.result b final, some b⟩
    | none => .error .nullKey

/-- The `foreach` loop over the found call sites; the surrounding
`try`/`catch` writes an error and rethrows, so the first statement-
terminating error aborts the whole run. -/
def processCalls (tree : Script) (locale : Option String) (parentDir : String)
    (st : RunState) : List Call → Except PSError RunState
  | [] => .ok st
  | c :: cs =>
    match processCall tree locale parentDir st c with
    | .ok st' => processCalls tree locale parentDir st' cs
    | .error e => .error e

/-- The call-site search: `CommandAst`s whose `GetCommandName()` `-eq`
(case-insensitively) equals `Import-LocalizedData`. -/
def findCalls (tree : Script) : List Call :=
  tree.commands.filter (fun c => ciEq c.name "Import-LocalizedData")

/-- The extractor's outcome on a successfully parsed file: the result
mapping (binding name to the argument record handed to
`Import-LocalizedData`) and the warnings written. -/
structure ExtractOutput where
  result : List (String × Record)
  warnings : List String
deriving DecidableEq

/-- The whole extraction over a parsed file: zero matching calls yield an
empty mapping plus a warning; otherwise every call is processed in order
and any error is rethrown by the `catch`. -/
def extractFile (tree : Script) (locale : Option String)
    (parentDir : String) : Except PSError ExtractOutput :=
  let calls := findCalls tree
  if calls.isEmpty then
    .ok ⟨[], ["No Import-LocalizedData calls found"]⟩
  else
    match processCalls tree locale parentDir ⟨[], none⟩ calls with
    | .ok st => .ok ⟨st.result, []⟩
    | .error e => .error e

/-- Quote characters, for the spec-side stripping rule. -/
def isQuoteChar (c : Char) : Bool :=
  c == '"' || c == '\''

/-- Modelled from the spec, for comparison with the code's `trimQuotes`:
"strip surrounding matching quote characters (single or double) from both
ends (one layer only)" — drop exactly one quote from each end when the
first and last characters are the same quote character. -/
def specStripOneLayer (s : String) : String :=
  match s.data with
  | [] => ⟨[]⟩
  | c :: rest =>
    if isQuoteChar c && rest.getLast? == some c then ⟨rest.dropLast⟩
    else ⟨c :: rest⟩

/-- A parameter-marker element: the two `switch` cases that set
`$parameterName`. -/
def isMarker : CmdElement → Bool
  | .param _ => true
  | .paramDecl _ => true
  | _ => false

/-- A value element: a string constant or a variable reference (the
elements that store into `$splat`). -/
def isValueElem : CmdElement → Bool
  | .strConst _ => true
  | .varRef _ => true
  | _ => false

/-- A scalar-storing value element: a string constant or a non-splatted
variable reference. -/
def isScalarValueElem : CmdElement → Bool
  | .strConst _ => true
  | .varRef v => !v.splatted
  | _ => false

/-- Left-to-right check that every value element is preceded by at least
one parameter marker; `seen` records whether a marker has occurred yet. -/
def markersPrecedeValues : Bool → List CmdElement → Bool
  | _, [] => true
  | seen, e :: rest =>
    (!(isValueElem e) || seen) && markersPrecedeValues (seen || isMarker e) rest

/-- Pairwise case-insensitively distinct keys, in list order. -/
def UniqKeys (r : Record) : Prop :=
  r.Pairwise (fun a b => ciEq a.1 b.1 = false)

theorem resolveArgsAux_append (tree : Script) (xs : List CmdElement) :
    ∀ (ys : List CmdElement) (st : ArgState),
    resolveArgsAux tree st (xs ++ ys) =
      match resolveArgsAux tree st xs with
      | .ok st' => resolveArgsAux tree st' ys
      | .error e => .error e := by
  induction xs with
  | nil => intro ys st; rfl
  | cons x xs ih =>
    intro ys st
    simp only [List.cons_append, resolveArgsAux]
    cases stepElement tree st x with
    | ok st' => exact ih ys st'
    | error e => rfl

theorem processCalls_append (tree : Script) (locale : Option String)
    (dir : String) (xs : List Call) :
    ∀ (ys : List Call) (st : RunState),
    processCalls tree locale dir st (xs ++ ys) =
      match processCalls tree locale dir st xs with
      | .ok st' => processCalls tree locale dir st' ys
      | .error e => .error e := by
  induction xs with
  | nil => intro ys st; rfl
  | cons x xs ih =>
    intro ys st
    simp only [List.cons_append, processCalls]
    cases processCall tree locale dir st x with
    | ok st' => exact ih ys st'
    | error e => rfl

theorem containsKey_append {α : Type} (r : List (String × α)) (kv : String × α)
    (k : String) :
    containsKey (r ++ [kv]) k = (containsKey r k || ciEq kv.1 k) := by
  simp [containsKey, List.any_append]

theorem hashtableAdd_ok (table : Record) :
    ∀ (r : Record), UniqKeys table →
    (∀ kv ∈ table, containsKey r kv.1 = false) →
    hashtableAdd r table = .ok (r ++ table) := by
  induction table with
  | nil => intro r _ _; simp [hashtableAdd]
  | cons kv rest ih =>
    intro r hu hd
    have h1 : containsKey r kv.1 = false := hd kv (List.mem_cons_self kv rest)
    have hu' : UniqKeys rest := (List.pairwise_cons.mp hu).2
    have hhead : ∀ b ∈ rest, ciEq kv.1 b.1 = false := (List.pairwise_cons.mp hu).1
    have hd' : ∀ kv' ∈ rest, containsKey (r ++ [kv]) kv'.1 = false := by
      intro kv' hm
      rw [containsKey_append]
      simp [hd kv' (List.mem_cons_of_mem kv hm), hhead kv' hm]
    have hrec := ih (r ++ [kv]) hu' hd'
    simp only [hashtableAdd, h1, Bool.false_eq_true, if_false, hrec,
      List.append_assoc, List.singleton_append]

theorem hashtableAdd_error (table : Record) :
    ∀ (r : Record), (∃ kv ∈ table, containsKey r kv.1 = true) →
    ∃ k, hashtableAdd r table = .error (.duplicateKey k) := by
  induction table with
  | nil =>
    intro r h
    rcases h with ⟨kv, hm, _⟩
    cases hm
  | cons kv rest ih =>
    intro r h
    by_cases h1 : containsKey r kv.1 = true
    · exact ⟨kv.1, by simp [hashtableAdd, h1]⟩
    · have h1' : containsKey r kv.1 = false := by
        cases hc : containsKey r kv.1
        · rfl
        · exact absurd hc h1
      rcases h with ⟨kv', hm, hck⟩
      have hm' : kv' ∈ rest := by
        rcases List.mem_cons.mp hm with he | hr
        · rw [he, h1'] at hck
          cases hck
        · exact hr
      have hck' : containsKey (r ++ [kv]) kv'.1 = true := by
        rw [containsKey_append, hck, Bool.true_or]
      obtain ⟨k, hk⟩ := ih (r ++ [kv]) ⟨kv', hm', hck'⟩
      exact ⟨k, by simp [hashtableAdd, h1', hk]⟩

theorem hashtableAdd_error_shape (table : Record) :
    ∀ (r : Record) (e : PSError), hashtableAdd r table = .error e →
    ∃ k, e = .duplicateKey k := by
  induction table with
  | nil =>
    intro r e h
    cases h
  | cons kv rest ih =>
    intro r e h
    by_cases h1 : containsKey r kv.1 = true
    · simp only [hashtableAdd, h1, if_true] at h
      injection h with h
      exact ⟨kv.1, h.symm⟩
    · have h1' : containsKey r kv.1 = false := by
        cases hc : containsKey r kv.1
        · rfl
        · exact absurd hc h1
      simp only [hashtableAdd, h1', Bool.false_eq_true, if_false] at h
      exact ih (r ++ [kv]) e h

theorem setKey_fst {α : Type} (k : String) (v : α) (kv : String × α) :
    (if ciEq kv.1 k then (kv.1, v) else kv).1 = kv.1 := by
  split <;> rfl

theorem uniqKeys_setKey (r : Record) (k : String) (v : Option String)
    (h : UniqKeys r) : UniqKeys (setKey r k v) := by
  unfold setKey
  by_cases hc : containsKey r k = true
  · rw [if_pos hc]
    refine List.Pairwise.map _ (fun a b hab => ?_) h
    rw [setKey_fst, setKey_fst]
    exact hab
  · have hc' : containsKey r k = false := by
      cases hck : containsKey r k
      · rfl
      · exact absurd hck hc
    rw [if_neg hc]
    refine List.pairwise_append.mpr ⟨h, List.pairwise_singleton _ _, ?_⟩
    intro a ha b hb
    rw [List.mem_singleton.mp hb]
    exact List.any_eq_false.mp hc' a ha |> fun hn => by
      cases hce : ciEq a.1 k
      · rfl
      · exact absurd hce hn

theorem uniqKeys_foldl_setKey (tree : Script) (entries : List HashEntry) :
    ∀ (acc : Record), UniqKeys acc →
    UniqKeys (entries.foldl
      (fun acc kv => setKey acc kv.keyText (splatEntryValue tree kv)) acc) := by
  induction entries with
  | nil => intro acc h; exact h
  | cons kv rest ih =>
    intro acc h
    exact ih _ (uniqKeys_setKey acc kv.keyText (splatEntryValue tree kv) h)

theorem uniqKeys_buildSplatTable (tree : Script) (entries : List HashEntry) :
    UniqKeys (buildSplatTable tree entries) :=
  uniqKeys_foldl_setKey tree entries [] List.Pairwise.nil

theorem uniqKeys_resolveSplatVar (tree : Script) (v : VarElem) (table : Record)
    (h : resolveSplatVar tree v = some table) : UniqKeys table := by
  unfold resolveSplatVar at h
  cases hl : lastAssignment tree v.userPath v.line with
  | none => rw [hl] at h; cases h
  | some a =>
    rw [hl] at h
    injection h with h
    rw [← h]
    exact uniqKeys_buildSplatTable tree (a.rhsPairs.getD [])

theorem param_none_of_no_markers (pre : List CmdElement) :
    ∀ (tree : Script) (splat : Record) (st : ArgState),
    (∀ x ∈ pre, isMarker x = false) →
    resolveArgsAux tree ⟨none, splat⟩ pre = .ok st → st.param = none := by
  induction pre with
  | nil =>
    intro tree splat st _ h
    simp only [resolveArgsAux] at h
    injection h with h
    rw [← h]
  | cons x rest ih =>
    intro tree splat st hm h
    have hrest : ∀ y ∈ rest, isMarker y = false :=
      fun y hy => hm y (List.mem_cons_of_mem x hy)
    cases x with
    | param t => exact absurd (hm _ (List.mem_cons_self _ _)) (by simp [isMarker])
    | paramDecl t => exact absurd (hm _ (List.mem_cons_self _ _)) (by simp [isMarker])
    | expr =>
      simp only [resolveArgsAux, stepElement] at h
      exact ih tree splat st hrest h
    | strConst t =>
      simp only [resolveArgsAux, stepElement, storeScalar] at h
      exact Except.noConfusion h
    | varRef v =>
      cases hv : v.splatted with
      | false =>
        simp only [resolveArgsAux, stepElement, hv, Bool.false_eq_true, if_false,
          storeScalar] at h
        exact Except.noConfusion h
      | true =>
        cases hr : resolveSplatVar tree v with
        | none =>
          simp only [resolveArgsAux, stepElement, hv, if_true, hr, storeScalar] at h
          exact Except.noConfusion h
        | some table =>
          cases ha : hashtableAdd splat table with
          | ok merged =>
            simp only [resolveArgsAux, stepElement, hv, if_true, hr, ha] at h
            exact ih tree merged st hrest h
          | error e =>
            simp only [resolveArgsAux, stepElement, hv, if_true, hr, ha] at h
            exact Except.noConfusion h
    | other k =>
      simp only [resolveArgsAux, stepElement] at h
      exact Except.noConfusion h

theorem no_nullKey_of_marked (elems : List CmdElement) :
    ∀ (tree : Script) (st : ArgState) (seen : Bool),
    markersPrecedeValues seen elems = true →
    (seen = true → st.param.isSome = true) →
    resolveArgsAux tree st elems ≠ .error .nullKey := by
  induction elems with
  | nil =>
    intro tree st seen _ _ h
    cases h
  | cons e rest ih =>
    intro tree st seen hm hinv
    have hm1 : (!(isValueElem e) || seen) = true ∧
        markersPrecedeValues (seen || isMarker e) rest = true := by
      simpa [markersPrecedeValues, Bool.and_eq_true] using hm
    cases e with
    | param t =>
      simp only [resolveArgsAux, stepElement]
      refine ih tree ⟨some (trimDashes t), st.splat⟩ (seen || isMarker (.param t))
        hm1.2 (fun _ => rfl)
    | paramDecl t =>
      simp only [resolveArgsAux, stepElement]
      refine ih tree ⟨some (trimDashes t), st.splat⟩ (seen || isMarker (.paramDecl t))
        hm1.2 (fun _ => rfl)
    | expr =>
      simp only [resolveArgsAux, stepElement]
      refine ih tree st (seen || isMarker .expr) ?_ ?_
      · exact hm1.2
      · intro hs
        refine hinv ?_
        simpa [isMarker] using hs
    | strConst t =>
      have hseen : seen = true := by simpa [isValueElem] using hm1.1
      have hp := hinv hseen
      cases hps : st.param with
      | none => rw [hps] at hp; cases hp
      | some p =>
        simp only [resolveArgsAux, stepElement, storeScalar, hps]
        refine ih tree ⟨some p, setKey st.splat p (some (trimQuotes t))⟩
          (seen || isMarker (.strConst t)) ?_ (fun _ => rfl)
        simpa [isMarker, hseen] using hm1.2
    | varRef v =>
      have hseen : seen = true := by simpa [isValueElem] using hm1.1
      have hp := hinv hseen
      cases hps : st.param with
      | none => rw [hps] at hp; cases hp
      | some p =>
        have hm2 : markersPrecedeValues true rest = true := by
          simpa [isMarker, hseen] using hm1.2
        cases hv : v.splatted with
        | false =>
          simp only [resolveArgsAux, stepElement, hv, Bool.false_eq_true, if_false,
            storeScalar, hps]
          exact ih tree ⟨some p, setKey st.splat p (resolveScalarVar tree v.userPath v.line v.text)⟩
            true hm2 (fun _ => rfl)
        | true =>
          cases hr : resolveSplatVar tree v with
          | none =>
            simp only [resolveArgsAux, stepElement, hv, if_true, hr, storeScalar, hps]
            exact ih tree ⟨some p, setKey st.splat p none⟩ true hm2 (fun _ => rfl)
          | some table =>
            cases ha : hashtableAdd st.splat table with
            | ok merged =>
              simp only [resolveArgsAux, stepElement, hv, if_true, hr, ha]
              refine ih tree ⟨st.param, merged⟩ true hm2 ?_
              intro _
              rw [hps]
              rfl
            | error e' =>
              simp only [resolveArgsAux, stepElement, hv, if_true, hr, ha]
              obtain ⟨k, hk⟩ := hashtableAdd_error_shape table st.splat e' ha
              rw [hk]
              intro hcontra
              injection hcontra with hcontra
              cases hcontra
    | other k =>
      simp only [resolveArgsAux, stepElement]
      intro hcontra
      injection hcontra with hcontra
      cases hcontra

theorem processCall_locale_congr (tree : Script) (dir : String) (st : RunState)
    (c : Call) (loc1 loc2 : Option String)
    (h : effectiveLocale loc1 = effectiveLocale loc2) :
    processCall tree loc1 dir st c = processCall tree loc2 dir st c := by
  unfold processCall
  rw [h]

theorem processCalls_locale_congr (tree : Script) (dir : String)
    (loc1 loc2 : Option String) (h : effectiveLocale loc1 = effectiveLocale loc2) :
    ∀ (cs : List Call) (st : RunState),
    processCalls tree loc1 dir st cs = processCalls tree loc2 dir st cs := by
  intro cs
  induction cs with
  | nil => intro st; rfl
  | cons c cs ih =>
    intro st
    simp only [processCalls, processCall_locale_congr tree dir st c loc1 loc2 h]
    cases processCall tree loc2 dir st c with
    | ok st' => exact ih st'
    | error e => rfl

theorem extractFile_locale_congr (tree : Script) (dir : String)
    (loc1 loc2 : Option String) (h : effectiveLocale loc1 = effectiveLocale loc2) :
    extractFile tree loc1 dir = extractFile tree loc2 dir := by
  unfold extractFile
  simp only [processCalls_locale_congr tree dir loc1 loc2 h]

/-- C1 counterexample: a file whose first call site is well formed (literal
`-FileName` and `-BindingVariable` arguments) and whose second call site
contains an element of unrecognized kind does NOT return a mapping with the
well-formed call's entry — the `throw` of the `default` branch is rethrown
by the `catch`, so the whole extraction errors and nothing is returned. -/
theorem c1_counterexample :
    extractFile
      ⟨[], [⟨"Import-LocalizedData",
              [CmdElement.param "-FileName", CmdElement.strConst "\"A.psd1\"",
               CmdElement.param "-BindingVariable", CmdElement.strConst "\"Bind\""]⟩,
            ⟨"Import-LocalizedData", [CmdElement.other "ScriptBlockAst"]⟩]⟩
      none "/mod"
      = .error (.unhandled "ScriptBlockAst") := rfl

/-- C1 (amended): an Element of unrecognized kind encountered while
resolving one call's arguments aborts the ENTIRE extraction, not just that
call: whenever the matching calls split as `pre ++ c :: post` with `pre`
processing successfully and `c`'s resolution raising an error, the whole
extraction returns that error and no mapping at all — other well-formed
call sites produce no entries. -/
theorem c1_unhandled_aborts_extraction (tree : Script) (locale : Option String)
    (dir : String) (pre post : List Call) (c : Call) (st : RunState) (e : PSError)
    (hcalls : findCalls tree = pre ++ c :: post)
    (hpre : processCalls tree locale dir ⟨[], none⟩ pre = .ok st)
    (hc : resolveCall tree c.elements = .error e) :
    extractFile tree locale dir = .error e := by
  unfold extractFile
  simp only [hcalls]
  have hne : (pre ++ c :: post).isEmpty = false := by
    cases pre <;> rfl
  rw [hne]
  simp only [Bool.false_eq_true, if_false]
  rw [processCalls_append tree locale dir pre (c :: post) ⟨[], none⟩, hpre]
  simp only [processCalls, processCall, hc]

/-- C1 witness: the amended theorem applied to a one-call file whose only
call holds an unrecognized element kind. -/
theorem c1_unhandled_aborts_extraction_witness :
    extractFile ⟨[], [⟨"Import-LocalizedData", [CmdElement.other "ScriptBlockAst"]⟩]⟩
      none "/mod" = .error (.unhandled "ScriptBlockAst") :=
  c1_unhandled_aborts_extraction
    ⟨[], [⟨"Import-LocalizedData", [CmdElement.other "ScriptBlockAst"]⟩]⟩ none "/mod"
    [] [] ⟨"Import-LocalizedData", [CmdElement.other "ScriptBlockAst"]⟩
    ⟨[], none⟩ (.unhandled "ScriptBlockAst") rfl rfl rfl

/-- C2: with assignments to `fn` at lines 2 and 5 and a reference `$fn` at
line 6, the value stored under `FileName` is the REFERENCE's own extent
text `$fn` (quote-trimmed), not the line-5 assignment's value `B.psd1`:
the non-splatted branch of `Get-VariableFromScriptBlock` only uses the
found assignment as an existence test and returns
`$Element.Extent.Text`. -/
theorem c2_reference_text_stored :
    resolveCall
      ⟨[⟨some "fn", 2, "\"A.psd1\"", none⟩, ⟨some "fn", 5, "\"B.psd1\"", none⟩], []⟩
      [CmdElement.param "-FileName", CmdElement.varRef ⟨"fn", 6, "$fn", false⟩,
       CmdElement.param "-BindingVariable", CmdElement.strConst "\"X\""]
      = .ok [("FileName", some "$fn"), ("BindingVariable", some "X")] ∧
    ("$fn" : String) ≠ "B.psd1" :=
  ⟨rfl, by decide⟩

/-- C3 counterexample: for the literal `"""a"""` (a double-quoted string
with an escaped-quote body, extent text `"""a"""`), the code stores `a`
(every leading and trailing quote character is trimmed), while stripping
exactly one layer of surrounding matching quotes would give `""a""`. -/
theorem c3_counterexample :
    resolveCall ⟨[], []⟩
      [CmdElement.param "-FileName", CmdElement.strConst "\"\"\"a\"\"\""]
      = .ok [("FileName", some "a")] ∧
    specStripOneLayer "\"\"\"a\"\"\"" = "\"\"a\"\"" ∧
    ("a" : String) ≠ "\"\"a\"\"" :=
  ⟨rfl, rfl, by decide⟩

/-- C3 (amended): for a call whose file-name, binding-variable and locale
arguments are quoted string literals, each resolved value equals the
literal's source text with ALL leading and trailing double-quote characters
removed and then ALL leading and trailing single-quote characters removed
(`trimQuotes`, the semantics of `.Trim(dquote).Trim(squote)`): one layer
for ordinary literals, but more when the text begins or ends with further
quote characters, and the two quote kinds need not match. -/
theorem c3_trim_all_quote_layers (f b l : String) :
    resolveCall ⟨[], []⟩
      [CmdElement.param "-FileName", CmdElement.strConst f,
       CmdElement.param "-BindingVariable", CmdElement.strConst b,
       CmdElement.param "-UICulture", CmdElement.strConst l]
      = .ok [("FileName", some (trimQuotes f)),
             ("BindingVariable", some (trimQuotes b)),
             ("UICulture", some (trimQuotes l))] := rfl

/-- C4 counterexample: a reference `$fn` with no matching assignment in the
tree stores `$null` (`none`) under the parameter name, not its raw source
text `$fn`: `Get-VariableFromScriptBlock` has no fallback branch and
returns nothing when the assignment search comes up empty. -/
theorem c4_counterexample :
    resolveCall ⟨[], []⟩
      [CmdElement.param "-FileName", CmdElement.varRef ⟨"fn", 6, "$fn", false⟩]
      = .ok [("FileName", none)] ∧
    ([("FileName", (none : Option String))] : Record) ≠ [("FileName", some "$fn")] :=
  ⟨rfl, by decide⟩

/-- C4 (amended): for every non-splatted Variable reference with no
Assignment whose identifier matches at or before the reference's starting
line, the resolution helper returns `$null`, and `$null` is stored under
the active parameter name — no error is raised, but the stored value is
null, not the reference's raw source text. -/
theorem c4_null_when_no_assignment (tree : Script) (p : String) (v : VarElem)
    (hspl : v.splatted = false)
    (hna : tree.assignments.filter (matchesVar v.userPath v.line) = []) :
    resolveCall tree [CmdElement.param p, CmdElement.varRef v]
      = .ok [(trimDashes p, none)] := by
  have hres : resolveScalarVar tree v.userPath v.line v.text = none := by
    unfold resolveScalarVar lastAssignment
    rw [hna]
    rfl
  simp [resolveCall, resolveArgsAux, stepElement, hspl, hres, storeScalar,
    setKey, containsKey]

/-- C4 witness: the amended theorem applied to an assignment-free tree. -/
theorem c4_null_when_no_assignment_witness :
    resolveCall ⟨[], []⟩
      [CmdElement.param "-FileName", CmdElement.varRef ⟨"fn", 6, "$fn", false⟩]
      = .ok [(trimDashes "-FileName", none)] :=
  c4_null_when_no_assignment ⟨[], []⟩ "-FileName" ⟨"fn", 6, "$fn", false⟩ rfl rfl

/-- C5: a call site passing only a bundle-expansion variable whose target
assignment is the key/value literal with entries
`FileName = <fx>; BindingVariable = <vx>` resolves to exactly the same
argument record as the equivalent call using direct named literal
arguments `-FileName <fx> -BindingVariable <vx>` in the same tree, and that
record holds the bundle's entries directly (not nested under any parameter
name). -/
theorem c5_bundle_splat_equivalence (fx vx : String) :
    resolveCall
      ⟨[⟨some "withSplat", 1, "bundle literal",
          some [⟨"FileName", fx, none⟩, ⟨"BindingVariable", vx, none⟩]⟩], []⟩
      [CmdElement.varRef ⟨"withSplat", 2, "@withSplat", true⟩]
      = resolveCall
        ⟨[⟨some "withSplat", 1, "bundle literal",
            some [⟨"FileName", fx, none⟩, ⟨"BindingVariable", vx, none⟩]⟩], []⟩
        [CmdElement.param "-FileName", CmdElement.strConst fx,
         CmdElement.param "-BindingVariable", CmdElement.strConst vx] ∧
    resolveCall
      ⟨[⟨some "withSplat", 1, "bundle literal",
          some [⟨"FileName", fx, none⟩, ⟨"BindingVariable", vx, none⟩]⟩], []⟩
      [CmdElement.varRef ⟨"withSplat", 2, "@withSplat", true⟩]
      = .ok [("FileName", some (trimQuotes fx)),
             ("BindingVariable", some (trimQuotes vx))] :=
  ⟨rfl, rfl⟩

/-- C6 counterexample: a file whose first call binds `Bind1` and whose
second call has no `BindingVariable` parameter returns the SECOND call's
record under `Bind1` — the stale `$bindingVariable` from the first
iteration is reused and the first call's entry is overwritten, instead of
the second call's results being discarded. -/
theorem c6_counterexample :
    extractFile
      ⟨[], [⟨"Import-LocalizedData",
              [CmdElement.param "-FileName", CmdElement.strConst "\"A.psd1\"",
               CmdElement.param "-BindingVariable", CmdElement.strConst "\"Bind1\""]⟩,
            ⟨"Import-LocalizedData",
              [CmdElement.param "-FileName", CmdElement.strConst "\"B.psd1\""]⟩]⟩
      none "/mod"
      = .ok ⟨[("Bind1",
               [("FileName", some "B.psd1"), ("UICulture", some "en-US"),
                ("BaseDirectory", some "/mod"), ("ErrorAction", some "Continue")])],
             []⟩ := rfl

/-- C6 (amended): a call site whose resolved record has no truthy
`BindingVariable` is NOT discarded: its finalized record is stored under
the binding name left over from the most recent earlier call that had one
(overwriting that call's entry), and when no earlier call set a binding
name the `$null`-index assignment into `$result` raises an error that
aborts the extraction. -/
theorem c6_missing_binding_reuses_previous (tree : Script)
    (locale : Option String) (dir : String) (st : RunState) (c : Call)
    (splat : Record) (hres : resolveCall tree c.elements = .ok splat)
    (hnb : truthy (lookupKey splat "BindingVariable") = false) :
    processCall tree locale dir st c =
      match st.binding with
      | some b =>
          .ok ⟨setKey st.result b (finalizeSplat splat (effectiveLocale locale) dir),
               some b⟩
      | none => .error .nullKey := by
  unfold processCall
  rw [hres]
  simp only [hnb, Bool.false_eq_true, if_false]

/-- C6 witness: the amended theorem applied after a call that set the
binding name `Bind1`. -/
theorem c6_missing_binding_reuses_previous_witness :
    processCall ⟨[], []⟩ none "/mod" ⟨[("Bind1", [])], some "Bind1"⟩
      ⟨"Import-LocalizedData",
        [CmdElement.param "-FileName", CmdElement.strConst "\"B.psd1\""]⟩
      = .ok ⟨[("Bind1",
               [("FileName", some "B.psd1"), ("UICulture", some "en-US"),
                ("BaseDirectory", some "/mod"), ("ErrorAction", some "Continue")])],
             some "Bind1"⟩ :=
  c6_missing_binding_reuses_previous ⟨[], []⟩ none "/mod"
    ⟨[("Bind1", [])], some "Bind1"⟩
    ⟨"Import-LocalizedData",
      [CmdElement.param "-FileName", CmdElement.strConst "\"B.psd1\""]⟩
    [("FileName", some "B.psd1")] rfl rfl

/-- C7: extraction with no locale argument, and extraction with an
empty-named locale, behave identically to extraction with `en-US`
explicitly — the injected `UICulture` parameter is `en-US` in each case,
so all runs return the same mapping for every parsed file. -/
theorem c7_locale_default (tree : Script) (dir : String) :
    extractFile tree none dir = extractFile tree (some "en-US") dir ∧
    extractFile tree (some "") dir = extractFile tree (some "en-US") dir :=
  ⟨extractFile_locale_congr tree dir none (some "en-US") rfl,
   extractFile_locale_congr tree dir (some "") (some "en-US") rfl⟩

/-- C8: when no command in the parsed file matches the
`Import-LocalizedData` name (case-insensitively), extraction returns an
empty mapping together with the warning, and does not raise any error. -/
theorem c8_no_call_sites (tree : Script) (locale : Option String)
    (dir : String)
    (h : ∀ c ∈ tree.commands, ciEq c.name "Import-LocalizedData" = false) :
    extractFile tree locale dir
      = .ok ⟨[], ["No Import-LocalizedData calls found"]⟩ := by
  have hcalls : findCalls tree = [] := by
    unfold findCalls
    exact List.filter_eq_nil_iff.mpr (fun c hc => by simp [h c hc])
  unfold extractFile
  simp only [hcalls]
  rfl

/-- C8 witness: a file whose only command is `Get-ChildItem`. -/
theorem c8_no_call_sites_witness :
    extractFile ⟨[], [⟨"Get-ChildItem", []⟩]⟩ none "/mod"
      = .ok ⟨[], ["No Import-LocalizedData calls found"]⟩ :=
  c8_no_call_sites ⟨[], [⟨"Get-ChildItem", []⟩]⟩ none "/mod" (by decide)

/-- C9: merging a resolved bundle (`$splat += $variableValue`) raises a
duplicate-key error whenever some bundle key is already present
(case-insensitively) in the record under construction, and succeeds —
appending the bundle's entries after the existing ones, overwriting
nothing — exactly when the bundle's keys are disjoint from the record's
keys. -/
theorem c9_splat_merge_duplicate_key (tree : Script) (st : ArgState)
    (v : VarElem) (table : Record) (hspl : v.splatted = true)
    (hres : resolveSplatVar tree v = some table) :
    ((∃ kv ∈ table, containsKey st.splat kv.1 = true) →
       ∃ k, stepElement tree st (.varRef v) = .error (.duplicateKey k)) ∧
    ((∀ kv ∈ table, containsKey st.splat kv.1 = false) →
       stepElement tree st (.varRef v) = .ok ⟨st.param, st.splat ++ table⟩) := by
  constructor
  · intro hover
    obtain ⟨k, hk⟩ := hashtableAdd_error table st.splat hover
    exact ⟨k, by simp [stepElement, hspl, hres, hk]⟩
  · intro hdisj
    have hadd := hashtableAdd_ok table st.splat
      (uniqKeys_resolveSplatVar tree v table hres) hdisj
    simp [stepElement, hspl, hres, hadd]

/-- C9 witness: the same bundle merged into a record that already has
`FileName` (duplicate-key error) and into one that does not (successful
append). -/
theorem c9_splat_merge_duplicate_key_witness :
    (∃ k, stepElement
        ⟨[⟨some "bundle", 1, "kv literal", some [⟨"FileName", "\"A.psd1\"", none⟩]⟩], []⟩
        ⟨some "UICulture", [("FileName", some "B.psd1")]⟩
        (.varRef ⟨"bundle", 2, "@bundle", true⟩)
        = .error (.duplicateKey k)) ∧
    stepElement
        ⟨[⟨some "bundle", 1, "kv literal", some [⟨"FileName", "\"A.psd1\"", none⟩]⟩], []⟩
        ⟨some "UICulture", [("BaseDirectory", some "/mod")]⟩
        (.varRef ⟨"bundle", 2, "@bundle", true⟩)
        = .ok ⟨some "UICulture", [("BaseDirectory", some "/mod"), ("FileName", some "A.psd1")]⟩ :=
  ⟨(c9_splat_merge_duplicate_key
      ⟨[⟨some "bundle", 1, "kv literal", some [⟨"FileName", "\"A.psd1\"", none⟩]⟩], []⟩
      ⟨some "UICulture", [("FileName", some "B.psd1")]⟩
      ⟨"bundle", 2, "@bundle", true⟩ [("FileName", some "A.psd1")] rfl rfl).1
      ⟨("FileName", some "A.psd1"), by decide, by decide⟩,
   (c9_splat_merge_duplicate_key
      ⟨[⟨some "bundle", 1, "kv literal", some [⟨"FileName", "\"A.psd1\"", none⟩]⟩], []⟩
      ⟨some "UICulture", [("BaseDirectory", some "/mod")]⟩
      ⟨"bundle", 2, "@bundle", true⟩ [("FileName", some "A.psd1")] rfl rfl).2
      (by decide)⟩

/-- C10: a string constant or non-splatted variable value element that
occurs before any parameter-marker element is stored under the still-null
`$parameterName`, raising the null-index error (first conjunct); and under
the precondition that every value element is preceded by at least one
parameter marker, that error branch is unreachable: resolution never
returns the null-key error (second conjunct). -/
theorem c10_null_parameter_name :
    (∀ (tree : Script) (pre post : List CmdElement) (e : CmdElement)
       (st : ArgState),
       (∀ x ∈ pre, isMarker x = false) →
       resolveArgsAux tree ⟨none, []⟩ pre = .ok st →
       isScalarValueElem e = true →
       resolveCall tree (pre ++ e :: post) = .error .nullKey) ∧
    (∀ (tree : Script) (elems : List CmdElement),
       markersPrecedeValues false elems = true →
       resolveCall tree elems ≠ .error .nullKey) := by
  constructor
  · intro tree pre post e st hnm hok hse
    have hpn : st.param = none := param_none_of_no_markers pre tree [] st hnm hok
    unfold resolveCall
    rw [resolveArgsAux_append tree pre (e :: post) ⟨none, []⟩, hok]
    cases e with
    | strConst t => simp [resolveArgsAux, stepElement, storeScalar, hpn]
    | varRef v =>
      have hv : v.splatted = false := by
        simpa [isScalarValueElem] using hse
      simp [resolveArgsAux, stepElement, hv, storeScalar, hpn]
    | param t => simp [isScalarValueElem] at hse
    | paramDecl t => simp [isScalarValueElem] at hse
    | expr => simp [isScalarValueElem] at hse
    | other k => simp [isScalarValueElem] at hse
  · intro tree elems hm hcontra
    have haux : resolveArgsAux tree ⟨none, []⟩ elems ≠ .error .nullKey :=
      no_nullKey_of_marked elems tree ⟨none, []⟩ false hm (fun h => by cases h)
    unfold resolveCall at hcontra
    cases ha : resolveArgsAux tree ⟨none, []⟩ elems with
    | ok st =>
      rw [ha] at hcontra
      exact Except.noConfusion hcontra
    | error e =>
      rw [ha] at hcontra
      injection hcontra with hcontra
      rw [hcontra] at ha
      exact haux ha

/-- C10 witness: a lone literal with no preceding marker errors with the
null key; the same literal preceded by `-FileName` does not. -/
theorem c10_null_parameter_name_witness :
    resolveCall ⟨[], []⟩ [CmdElement.strConst "\"A.psd1\""] = .error .nullKey ∧
    resolveCall ⟨[], []⟩
      [CmdElement.param "-FileName", CmdElement.strConst "\"A.psd1\""]
      ≠ .error .nullKey :=
  ⟨c10_null_parameter_name.1 ⟨[], []⟩ [] [] (CmdElement.strConst "\"A.psd1\"")
      ⟨none, []⟩ (fun x hx => absurd hx (List.not_mem_nil x)) rfl rfl,
   c10_null_parameter_name.2 ⟨[], []⟩
      [CmdElement.param "-FileName", CmdElement.strConst "\"A.psd1\""] rfl⟩

end PSLoc
